import Mathlib

/-!
# udp_proxy: the relay handler, the acceptor and the record classifier

A shallow embedding of `udp_proxy.c`.

* C `int` values (file descriptors, lengths, the packet counter, the two
  configured intervals) are `Int`.  Signed overflow is undefined in C, so the
  counter `msgCount` is an unbounded integer here: the model describes every
  run of the program in which no `int` overflows.
* A `char` is the `Int` value of the byte; a buffer is the list of its bytes.
* `printf` and `send` are recorded, in program order, as a list of `Effect`s.
* What the environment returns (`recv`, `socket`, `bind`, ...) is an input of
  the handler that makes the call.
-/

namespace UdpProxy

/-- The value of one C `char`. -/
abbrev char := Int

/-- Datagram msg size, `#define MSG_SIZE 1500`. -/
def MSG_SIZE : Nat := 1500

/-- The globals `dropPacket` and `delayPacket`, set once by `main` from `-d` and `-y`. -/
structure Config where
  dropPacket : Int
  delayPacket : Int
deriving DecidableEq, Repr

/-- The struct `proxy_ctx`: the two sockets of one session. -/
structure proxy_ctx where
  clientFd : Int
  serverFd : Int
deriving DecidableEq, Repr

/-- The struct `delay_packet`.  The field `ctx` is a pointer, `none` is `NULL`. -/
structure delay_packet where
  msg : List char
  msgLen : Int
  sendCount : Int
  peerFd : Int
  ctx : Option proxy_ctx
deriving DecidableEq, Repr

/-- The mutable globals of the fault injector: the static `msgCount` of `Msg`,
the holder `tmpDelay`, and the pointer `currDelay`, which is only ever `NULL`
(`false`) or `&tmpDelay` (`true`). -/
structure State where
  msgCount : Int
  tmpDelay : delay_packet
  currDelay : Bool
deriving DecidableEq, Repr

/-- The state at program start: `msgCount = 0`, `tmpDelay` zero-initialised,
`currDelay = NULL`. -/
def initState : State :=
  { msgCount := 0
    tmpDelay := { msg := List.replicate MSG_SIZE 0, msgLen := 0, sendCount := 0,
                  peerFd := 0, ctx := none }
    currDelay := false }

/-- One observable action of a handler. `send fd data` is `send(fd, buf, len, 0)`
with `data` the first `len` bytes of `buf`; `event_add fd ctx` is the
registration of `Msg` for reads on `fd` with argument `ctx`. -/
inductive Effect where
  | printf (s : String)
  | perror (s : String)
  | send (fd : Int) (data : List char)
  | event_add (fd : Int) (ctx : proxy_ctx)
deriving DecidableEq, Repr

/-- How a handler call ends: it returns to the event loop, it dies in
`assert(0)`, or it leaves through `exit(EXIT_FAILURE)`. -/
inductive Status where
  | returned
  | aborted
  | exited
deriving DecidableEq, Repr

/-- The result of one handler call: how it ended, the globals at that point,
and what it printed and sent, in order. -/
structure Outcome where
  status : Status
  state : State
  out : List Effect
deriving DecidableEq, Repr

/-- What `recv(fd, msg, MSG_SIZE, 0)` (or `recvfrom`) leaves behind: its return
value and the contents of the stack buffer `char msg[MSG_SIZE]` after the call.
Only the first `ret` bytes were received; the rest is whatever the buffer held.
The return value never exceeds the size that was passed. -/
structure Recv where
  ret : Int
  msg : List char
  hsize : msg.length = MSG_SIZE
  hret : ret ≤ MSG_SIZE

def serverSide : String := "server"
def clientSide : String := "client"

/-- The function `GetRecordType`.  The argument is the buffer `msg` points to;
the function reads `msg[0]` and `msg[13]`, so the buffer has to hold 14 bytes. -/
def GetRecordType (msg : List char) (h : 14 ≤ msg.length) : String :=
  if msg.get ⟨0, by omega⟩ = 0x16 then
    if msg.get ⟨13, by omega⟩ = 0x01 then "Client Hello"
    else if msg.get ⟨13, by omega⟩ = 0x00 then "Hello Request"
    else if msg.get ⟨13, by omega⟩ = 0x03 then "Hello Verify Request"
    else if msg.get ⟨13, by omega⟩ = 0x04 then "Session Ticket"
    else if msg.get ⟨13, by omega⟩ = 0x0b then "Certificate"
    else if msg.get ⟨13, by omega⟩ = 0x0d then "Certificate Request"
    else if msg.get ⟨13, by omega⟩ = 0x0f then "Certificate Verify"
    else if msg.get ⟨13, by omega⟩ = 0x02 then "Server Hello"
    else if msg.get ⟨13, by omega⟩ = 0x0e then "Server Hello Done"
    else if msg.get ⟨13, by omega⟩ = 0x10 then "Client Key Exchange"
    else if msg.get ⟨13, by omega⟩ = 0x0c then "Server Key Exchange"
    else "Encrypted Handshake Message"
  else if msg.get ⟨0, by omega⟩ = 0x14 then "Change Cipher Spec"
  else if msg.get ⟨0, by omega⟩ = 0x17 then "Application Data"
  else if msg.get ⟨0, by omega⟩ = 0x15 then "Alert"
  else "Unknown"

/-- The label the handlers print for a receive buffer: `GetRecordType(msg)` on
the `MSG_SIZE`-byte stack array. -/
def Recv.recordType (r : Recv) : String :=
  GetRecordType r.msg (by rw [r.hsize]; decide)

/-- The bytes `send(fd, buf, len, 0)` transmits: the first `len` bytes of `buf`. -/
def sendBytes (buf : List char) (len : Int) : List char :=
  buf.take len.toNat

/-- The call `memcpy(dst, src, n)` on two buffers: the first `n` bytes of `dst`
are replaced by those of `src`. -/
def memcpy (dst src : List char) (n : Int) : List char :=
  src.take n.toNat ++ dst.drop n.toNat

/-- The handler `Msg(fd, which, arg)`, with `ctx = (proxy_ctx*)arg` and `r` what
its `recv` call yields.  The `%` of C truncates, which is `Int.tmod`. -/
def Msg (cfg : Config) (s : State) (fd : Int) (ctx : proxy_ctx) (r : Recv) : Outcome :=
  if r.ret = 0 then
    { status := .returned, state := s, out := [.printf "read 0\n"] }
  else if r.ret < 0 then
    { status := .returned, state := s, out := [.printf "read < 0\n"] }
  else
    let peerFd := if ctx.serverFd = fd then ctx.clientFd else ctx.serverFd
    let side := if ctx.serverFd = fd then serverSide else clientSide
    let out0 : List Effect := [.printf ("got " ++ r.recordType ++ " from " ++ side ++ "\n")]
    -- msgCount++
    let msgCount := s.msgCount + 1
    -- is it now time to send along delayed packet
    let release : Bool :=
      decide (cfg.delayPacket ≠ 0) && s.currDelay && decide (s.tmpDelay.sendCount = msgCount)
    let out1 : List Effect :=
      if release then
        out0 ++ [.printf "*** sending on delayed packet\n",
                 .send s.tmpDelay.peerFd (sendBytes s.tmpDelay.msg s.tmpDelay.msgLen)]
      else out0
    let currDelay : Bool := if release then false else s.currDelay
    -- should we delay the current packet
    if cfg.delayPacket ≠ 0 ∧ Int.tmod msgCount cfg.delayPacket = 0 then
      let out2 := out1 ++ [.printf "*** but delaying this packet\n"]
      if currDelay = false then
        { status := .returned
          state :=
            { msgCount := msgCount
              tmpDelay :=
                { msg := memcpy s.tmpDelay.msg r.msg r.ret
                  msgLen := r.ret
                  sendCount := msgCount + cfg.delayPacket
                  peerFd := peerFd
                  ctx := some ctx }
              currDelay := true }
          out := out2 }
      else
        { status := .aborted
          state := { msgCount := msgCount, tmpDelay := s.tmpDelay, currDelay := currDelay }
          out := out2 ++ [.printf "*** oops, still have a packet in delay\n"] }
    -- should we drop current packet altogether
    else if cfg.dropPacket ≠ 0 ∧ Int.tmod msgCount cfg.dropPacket = 0 then
      { status := .returned
        state := { msgCount := msgCount, tmpDelay := s.tmpDelay, currDelay := currDelay }
        out := out1 ++ [.printf "*** but dropping this packet\n"] }
    else
      -- forward along
      { status := .returned
        state := { msgCount := msgCount, tmpDelay := s.tmpDelay, currDelay := currDelay }
        out := out1 ++ [.send peerFd (sendBytes r.msg r.ret)] }

/-- What the environment hands to one call of `newClient`: whether `malloc`
succeeded, the result of `recvfrom`, the two `socket` results and the return
values of `bind`, the two `connect`s, the two `event_new`s and `send`. -/
structure NewClientEnv where
  mallocOk : Bool
  r : Recv
  clientFd : Int
  bindRet : Int
  connectClientRet : Int
  serverFd : Int
  connectServerRet : Int
  cliEventOk : Bool
  srvEventOk : Bool
  sendRet : Int

/-- The handler `newClient`, the callback of the listening socket.  It reads
neither `dropPacket` nor `delayPacket` and touches none of the injector's
globals. -/
def newClient (s : State) (e : NewClientEnv) : Outcome :=
  if e.mallocOk = false then
    { status := .exited, state := s, out := [.perror "malloc failed"] }
  else
    -- msgLen = recvfrom(fd, msg, MSG_SIZE, 0, &client, &len)
    let msgLen := e.r.ret
    let out0 : List Effect :=
      [.printf ("got " ++ e.r.recordType ++ " from client, first msg\n")]
    if e.clientFd < 0 then
      { status := .exited, state := s, out := out0 ++ [.perror "socket failed"] }
    else if e.bindRet < 0 then
      { status := .exited, state := s, out := out0 ++ [.perror "bind failed"] }
    else if e.connectClientRet < 0 then
      { status := .exited, state := s, out := out0 ++ [.perror "connect failed"] }
    else if e.serverFd < 0 then
      { status := .exited, state := s, out := out0 ++ [.perror "socket failed"] }
    else if e.connectServerRet < 0 then
      { status := .exited, state := s, out := out0 ++ [.perror "connect failed"] }
    else
      let ctx : proxy_ctx := { clientFd := e.clientFd, serverFd := e.serverFd }
      -- client and server both use same Msg relay callback
      if e.cliEventOk = false then
        { status := .exited, state := s
          out := out0 ++ [.perror "event_new failed for cliEvent"] }
      else
        let out1 := out0 ++ [.event_add ctx.clientFd ctx]
        if e.srvEventOk = false then
          { status := .exited, state := s
            out := out1 ++ [.perror "event_new failed for srvEvent"] }
        else
          let out2 := out1 ++ [.event_add ctx.serverFd ctx]
          -- send along initial client message
          let out3 := out2 ++ [.send ctx.serverFd (sendBytes e.r.msg msgLen)]
          if e.sendRet < 0 then
            { status := .exited, state := s, out := out3 ++ [.perror "send failed"] }
          else
            { status := .returned, state := s, out := out3 }

/-- The arguments of one call of `Msg` together with what its `recv` yields. -/
structure MsgCall where
  fd : Int
  ctx : proxy_ctx
  r : Recv

/-- One callback invocation made by the event loop. -/
inductive Call where
  | Msg (c : MsgCall)
  | newClient (e : NewClientEnv)

/-- One iteration of the event loop: run the handler of the ready socket. -/
def Call.run (cfg : Config) (s : State) : Call → Outcome
  | .Msg c => UdpProxy.Msg cfg s c.fd c.ctx c.r
  | .newClient e => UdpProxy.newClient s e

/-- The loop `event_base_dispatch`: the handlers run one after the other on
the shared globals.  The result lists the outcome of every call that was
made; the loop ends with the first call that does not return. -/
def dispatch (cfg : Config) (s : State) : List Call → List Outcome
  | [] => []
  | c :: cs =>
    let o := c.run cfg s
    o :: (if o.status = .returned then dispatch cfg o.state cs else [])

/-- The `send` calls among a list of effects, in order: socket and bytes. -/
def sends : List Effect → List (Int × List char)
  | [] => []
  | .send fd data :: es => (fd, data) :: sends es
  | _ :: es => sends es

/-- The socket a datagram read by this call is relayed to, and the bytes that
were received: the peer of `fd` within `ctx`, and the first `ret` bytes of the
receive buffer. -/
def MsgCall.datagram (c : MsgCall) : Int × List char :=
  (if c.ctx.serverFd = c.fd then c.ctx.clientFd else c.ctx.serverFd,
   c.r.msg.take c.r.ret.toNat)

/-- The datagram held in the delay slot, if any: where it will be sent and the
bytes that will be sent. -/
def State.pending (s : State) : Option (Int × List char) :=
  if s.currDelay then some (s.tmpDelay.peerFd, sendBytes s.tmpDelay.msg s.tmpDelay.msgLen)
  else none

/-- A receive that stores the datagram `data` into a zeroed buffer: the return
value is the datagram's length. -/
def Recv.ofDatagram (data : List char) (h : data.length ≤ MSG_SIZE) : Recv :=
  { ret := data.length
    msg := data ++ List.replicate (MSG_SIZE - data.length) 0
    hsize := by simp; omega
    hret := by exact_mod_cast h }

/-- A failed or empty read: `recv` returned `ret ≤ 0` and left the buffer as
it was (zeroed here). -/
def Recv.failed (ret : Int) (h : ret ≤ 0) : Recv :=
  { ret := ret
    msg := List.replicate MSG_SIZE 0
    hsize := by simp
    hret := by simp only [MSG_SIZE]; omega }

/-! ### Sample inputs -/

/-- A session with client socket 3 and server socket 4. -/
def sampleCtx : proxy_ctx := { clientFd := 3, serverFd := 4 }

/-- A call of `Msg` for `sampleCtx`: the datagram `data` arrives on `fd`. -/
def sampleCall (fd : Int) (data : List char) (h : data.length ≤ MSG_SIZE) : MsgCall :=
  { fd := fd, ctx := sampleCtx, r := Recv.ofDatagram data h }

/-- Seven one-byte datagrams, the third and the sixth from the server side. -/
def sampleCalls : List MsgCall :=
  [sampleCall 3 [1] (by decide), sampleCall 3 [2] (by decide), sampleCall 4 [3] (by decide),
   sampleCall 3 [4] (by decide), sampleCall 3 [5] (by decide), sampleCall 4 [6] (by decide),
   sampleCall 3 [7] (by decide)]

/-- An injector state with the counter at 5 and a one-byte datagram for socket
4 in the slot, to be released at count `sendCount`. -/
def sampleState (sendCount : Int) : State :=
  { msgCount := 5
    tmpDelay := { msg := 9 :: List.replicate (MSG_SIZE - 1) 0, msgLen := 1,
                  sendCount := sendCount, peerFd := 4, ctx := some sampleCtx }
    currDelay := true }

/-- A one-byte datagram `0x16` read into a buffer whose byte 13 still holds
`b13`. -/
def shortRecv (b13 : char) : Recv :=
  { ret := 1
    msg := 0x16 :: (List.replicate 12 0 ++ b13 :: List.replicate 1486 0)
    hsize := by
      simp only [List.length_cons, List.length_append, List.length_replicate, MSG_SIZE]
    hret := by decide }

/-- A call of `newClient` in which every set-up step succeeds: the sockets are
5 and 6, and `r` is what `recvfrom` left. -/
def sampleEnv (r : Recv) : NewClientEnv :=
  { mallocOk := true, r := r, clientFd := 5, bindRet := 0, connectClientRet := 0,
    serverFd := 6, connectServerRet := 0, cliEventOk := true, srvEventOk := true,
    sendRet := 1 }

/-- A 14-byte record: a handshake record with message type Client Hello. -/
def sampleHello : List char := [0x16, 0xfe, 0xff, 0, 0, 0, 0, 0, 0, 0, 0, 0, 0x2c, 0x01]

/-- A run that mixes the handlers: a new client, two reads, a failed read, two
reads, a second new client, three reads. -/
def sampleMixed : List Call :=
  [.newClient (sampleEnv (Recv.ofDatagram [1] (by decide))),
   .Msg (sampleCall 3 [2] (by decide)), .Msg (sampleCall 4 [3] (by decide)),
   .Msg ⟨3, sampleCtx, Recv.failed (-1) (by decide)⟩,
   .Msg (sampleCall 3 [4] (by decide)), .Msg (sampleCall 3 [5] (by decide)),
   .newClient (sampleEnv (Recv.ofDatagram [6] (by decide))),
   .Msg (sampleCall 4 [7] (by decide)), .Msg (sampleCall 3 [8] (by decide)),
   .Msg (sampleCall 3 [9] (by decide))]

/-- The successful reads among a list of calls: the calls of `Msg` whose `recv`
returned more than 0, the ones that advance `msgCount`. -/
def received : List Call → List MsgCall
  | [] => []
  | .Msg c :: cs => if 0 < c.r.ret then c :: received cs else received cs
  | .newClient _ :: cs => received cs

/-- What the call that brings the counter to `k` is to send under a delay
interval `y > 0` and a drop interval `d`, with `calls` the successful reads of
the run in order (`calls[k - 1]` got count `k`): first the datagram deferred
`y` counts earlier, when `k` is a multiple of `y` and at least `2 * y`; then
its own datagram, unless `k` is a multiple of `y` (deferred) or of `d`
(dropped). -/
def expectedSends (y d : Nat) (calls : List MsgCall) (k : Nat) : List (Int × List char) :=
  (if y ∣ k ∧ 2 * y ≤ k then (calls[k - y - 1]?).toList.map MsgCall.datagram else []) ++
  (if y ∣ k then []
   else if 0 < d ∧ d ∣ k then []
   else (calls[k - 1]?).toList.map MsgCall.datagram)

/-- The injector state after the successful reads `hist`, from the initial
state and under a delay interval `y > 0`: the counter is their number `n`, the
slot is occupied iff `y ≤ n`, and then it holds the datagram that got the last
multiple of `y` as its count, to be released `y` counts later. -/
def Inv (y : Nat) (hist : List MsgCall) (s : State) : Prop :=
  s.msgCount = (hist.length : Int) ∧
  s.currDelay = decide (y ≤ hist.length) ∧
  (y ≤ hist.length →
    s.tmpDelay.sendCount = ((y * (hist.length / y) + y : Nat) : Int) ∧
    s.pending = (hist[y * (hist.length / y) - 1]?).map MsgCall.datagram)

instance Inv.decidable (y : Nat) (hist : List MsgCall) (s : State) :
    Decidable (Inv y hist s) := by
  unfold Inv
  infer_instance

end UdpProxy

namespace UdpProxy

/-! ## Effects -/

theorem sends_append (a b : List Effect) : sends (a ++ b) = sends a ++ sends b := by
  induction a with
  | nil => rfl
  | cons e es ih => cases e <;> simp [sends, ih]

@[simp] theorem sends_nil : sends [] = [] := rfl

@[simp] theorem sends_printf (s : String) (es : List Effect) :
    sends (.printf s :: es) = sends es := rfl

@[simp] theorem sends_perror (s : String) (es : List Effect) :
    sends (.perror s :: es) = sends es := rfl

@[simp] theorem sends_event_add (fd : Int) (ctx : proxy_ctx) (es : List Effect) :
    sends (.event_add fd ctx :: es) = sends es := rfl

@[simp] theorem sends_send (fd : Int) (data : List char) (es : List Effect) :
    sends (.send fd data :: es) = (fd, data) :: sends es := rfl

/-! ## Buffers -/

/-- Sending `n` bytes of a buffer that `memcpy` filled with `n` bytes of `src`
sends the first `n` bytes of `src`. -/
theorem sendBytes_memcpy (dst src : List char) (n : Int) (h : n ≤ src.length) :
    sendBytes (memcpy dst src n) n = sendBytes src n := by
  unfold sendBytes memcpy
  have hlen : (src.take n.toNat).length = n.toNat := by
    rw [List.length_take]; omega
  rw [List.take_append_eq_append_take, hlen]
  simp

theorem Recv.send_after_memcpy (r : Recv) (dst : List char) :
    sendBytes (memcpy dst r.msg r.ret) r.ret = sendBytes r.msg r.ret :=
  UdpProxy.sendBytes_memcpy dst r.msg r.ret (by rw [r.hsize]; exact r.hret)

/-! ## One call of `Msg` -/

/-- A read that returns 0 or less: nothing but a log line. -/
theorem Msg_failed (cfg : Config) (s : State) (fd : Int) (ctx : proxy_ctx) (r : Recv)
    (h : r.ret ≤ 0) :
    Msg cfg s fd ctx r =
      { status := .returned, state := s
        out := [.printf (if r.ret = 0 then "read 0\n" else "read < 0\n")] } := by
  unfold Msg
  by_cases h0 : r.ret = 0
  · simp [h0]
  · have : r.ret < 0 := by omega
    simp [h0, this]

/-- The current datagram is put into the empty (or just emptied) delay slot. -/
theorem Msg_defer (cfg : Config) (s : State) (fd : Int) (ctx : proxy_ctx) (r : Recv)
    (hr : 0 < r.ret) (hy : cfg.delayPacket ≠ 0)
    (hk : Int.tmod (s.msgCount + 1) cfg.delayPacket = 0)
    (hfree : s.currDelay = false ∨ s.tmpDelay.sendCount = s.msgCount + 1) :
    (Msg cfg s fd ctx r).status = .returned ∧
    (Msg cfg s fd ctx r).state =
      { msgCount := s.msgCount + 1
        tmpDelay :=
          { msg := memcpy s.tmpDelay.msg r.msg r.ret
            msgLen := r.ret
            sendCount := s.msgCount + 1 + cfg.delayPacket
            peerFd := if ctx.serverFd = fd then ctx.clientFd else ctx.serverFd
            ctx := some ctx }
        currDelay := true } ∧
    sends (Msg cfg s fd ctx r).out = s.pending.toList := by
  have h0 : r.ret ≠ 0 := by omega
  have h1 : ¬ r.ret < 0 := by omega
  unfold Msg State.pending
  rcases hfree with hf | hf
  · simp [h0, h1, hy, hk, hf, sends_append]
  · cases hc : s.currDelay <;> simp [h0, h1, hy, hk, hf, hc, sends_append]

/-- The slot is still occupied when the current datagram is to be deferred. -/
theorem Msg_abort (cfg : Config) (s : State) (fd : Int) (ctx : proxy_ctx) (r : Recv)
    (hr : 0 < r.ret) (hy : cfg.delayPacket ≠ 0)
    (hk : Int.tmod (s.msgCount + 1) cfg.delayPacket = 0)
    (hc : s.currDelay = true) (hne : s.tmpDelay.sendCount ≠ s.msgCount + 1) :
    (Msg cfg s fd ctx r).status = .aborted ∧
    (Msg cfg s fd ctx r).state = { s with msgCount := s.msgCount + 1 } ∧
    sends (Msg cfg s fd ctx r).out = [] := by
  have h0 : r.ret ≠ 0 := by omega
  have h1 : ¬ r.ret < 0 := by omega
  unfold Msg
  simp [h0, h1, hy, hk, hc, hne, sends_append]

/-- The current datagram is not deferred: it is dropped or forwarded, after the
release of the pending one if that is due. -/
theorem Msg_pass (cfg : Config) (s : State) (fd : Int) (ctx : proxy_ctx) (r : Recv)
    (hr : 0 < r.ret)
    (hk : ¬ (cfg.delayPacket ≠ 0 ∧ Int.tmod (s.msgCount + 1) cfg.delayPacket = 0)) :
    (Msg cfg s fd ctx r).status = .returned ∧
    (Msg cfg s fd ctx r).state =
      { msgCount := s.msgCount + 1
        tmpDelay := s.tmpDelay
        currDelay :=
          if cfg.delayPacket ≠ 0 ∧ s.currDelay = true ∧ s.tmpDelay.sendCount = s.msgCount + 1
          then false else s.currDelay } ∧
    sends (Msg cfg s fd ctx r).out =
      (if cfg.delayPacket ≠ 0 ∧ s.currDelay = true ∧ s.tmpDelay.sendCount = s.msgCount + 1
        then s.pending.toList else []) ++
      (if cfg.dropPacket ≠ 0 ∧ Int.tmod (s.msgCount + 1) cfg.dropPacket = 0 then []
        else [(MsgCall.mk fd ctx r).datagram]) := by
  have h0 : r.ret ≠ 0 := by omega
  have h1 : ¬ r.ret < 0 := by omega
  unfold Msg State.pending MsgCall.datagram sendBytes
  simp only [h0, h1, hk, if_false]
  by_cases hrel : cfg.delayPacket ≠ 0 ∧ s.currDelay = true ∧
      s.tmpDelay.sendCount = s.msgCount + 1
  · obtain ⟨hy, hc, hs⟩ := hrel
    by_cases hd : cfg.dropPacket ≠ 0 ∧ Int.tmod (s.msgCount + 1) cfg.dropPacket = 0
    · simp [hy, hc, hs, hd, sends_append]
    · simp [hy, hc, hs, hd, sends_append]
  · have hrel2 : ¬ ((¬ cfg.delayPacket = 0 ∧ s.currDelay = true) ∧
        s.tmpDelay.sendCount = s.msgCount + 1) := by tauto
    have hcd : s.currDelay = true →
        (cfg.delayPacket = 0 ∨ s.currDelay = false) ∨
          ¬ s.tmpDelay.sendCount = s.msgCount + 1 := by
      intro hc
      by_cases hy : cfg.delayPacket = 0
      · exact Or.inl (Or.inl hy)
      · by_cases hs : s.tmpDelay.sendCount = s.msgCount + 1
        · exact absurd ⟨hy, hc, hs⟩ hrel
        · exact Or.inr hs
    by_cases hd : cfg.dropPacket ≠ 0 ∧ Int.tmod (s.msgCount + 1) cfg.dropPacket = 0
    · simp [hrel, hrel2, hcd, hd, sends_append]
    · simp [hrel, hrel2, hcd, hd, sends_append]

end UdpProxy

namespace UdpProxy

/-! ## Counter arithmetic -/

theorem tmod_succ_eq_zero_iff (n y : Nat) :
    Int.tmod ((n : Int) + 1) (y : Int) = 0 ↔ y ∣ n + 1 := by
  rw [← Int.dvd_iff_tmod_eq_zero]
  constructor
  · intro h
    have h' : ((y : Int)) ∣ ((n + 1 : Nat) : Int) := by simpa using h
    exact Int.natCast_dvd_natCast.mp h'
  · intro h
    have h' : ((y : Int)) ∣ ((n + 1 : Nat) : Int) := Int.natCast_dvd_natCast.mpr h
    simpa using h'

theorem mul_div_add_of_dvd_succ {n y : Nat} (h : y ∣ n + 1) :
    y * (n / y) + y = n + 1 := by
  have h1 : (n + 1) / y = n / y + 1 := by rw [Nat.succ_div, if_pos h]
  have h2 : y * ((n + 1) / y) = n + 1 := Nat.mul_div_cancel' h
  rw [h1, Nat.mul_add, Nat.mul_one] at h2
  exact h2

theorem succ_div_of_not_dvd {n y : Nat} (h : ¬ y ∣ n + 1) : (n + 1) / y = n / y := by
  rw [Nat.succ_div, if_neg h, Nat.add_zero]

theorem mul_div_add_ne_succ {n y : Nat} (h : ¬ y ∣ n + 1) : y * (n / y) + y ≠ n + 1 := by
  intro e
  apply h
  rw [← e]
  exact Dvd.dvd.add (Nat.dvd_mul_right y (n / y)) (Nat.dvd_refl y)

end UdpProxy

namespace UdpProxy

/-! ## The delay slot along a run of successful reads -/

theorem Inv_init (y : Nat) (hy : 0 < y) : Inv y [] initState := by
  refine ⟨rfl, ?_, ?_⟩
  · have : ¬ y ≤ 0 := by omega
    simp [initState, this]
  · intro h
    simp at h
    omega

theorem expectedSends_at (y d : Nat) (hist : List MsgCall) (c : MsgCall)
    (rest : List MsgCall) :
    expectedSends y d (hist ++ c :: rest) (hist.length + 1) =
      (if y ∣ hist.length + 1 ∧ 2 * y ≤ hist.length + 1
        then (hist[hist.length - y]?).toList.map MsgCall.datagram else []) ++
      (if y ∣ hist.length + 1 then []
       else if 0 < d ∧ d ∣ hist.length + 1 then []
       else [c.datagram]) := by
  unfold expectedSends
  have e1 : (hist ++ c :: rest)[hist.length + 1 - 1]? = some c := by
    rw [Nat.add_sub_cancel, List.getElem?_append_right (Nat.le_refl _), Nat.sub_self]
    exact List.getElem?_cons_zero
  rw [e1]
  by_cases h : y ∣ hist.length + 1 ∧ 2 * y ≤ hist.length + 1
  · have hy0 : 0 < y := Nat.pos_of_dvd_of_pos h.1 (Nat.succ_pos _)
    have hlt : hist.length + 1 - y - 1 < hist.length := by omega
    have e2 : (hist ++ c :: rest)[hist.length + 1 - y - 1]? = hist[hist.length - y]? := by
      rw [List.getElem?_append_left hlt]
      congr 1
      omega
    rw [if_pos h, if_pos h, e2]
    simp
  · rw [if_neg h, if_neg h]
    simp

/-- One successful read keeps the invariant, returns, and sends what the
cadence prescribes for its count. -/
theorem Msg_step (y d : Nat) (hy : 0 < y) (hist : List MsgCall) (s : State)
    (hI : Inv y hist s) (c : MsgCall) (hr : 0 < c.r.ret) (rest : List MsgCall) :
    (Msg ⟨d, y⟩ s c.fd c.ctx c.r).status = .returned ∧
    Inv y (hist ++ [c]) (Msg ⟨d, y⟩ s c.fd c.ctx c.r).state ∧
    sends (Msg ⟨d, y⟩ s c.fd c.ctx c.r).out =
      expectedSends y d (hist ++ c :: rest) (hist.length + 1) := by
  obtain ⟨hcnt, hcur, hslot⟩ := hI
  have hyne : (⟨d, y⟩ : Config).delayPacket ≠ 0 := by
    show ((y : Nat) : Int) ≠ 0
    exact_mod_cast (Nat.pos_iff_ne_zero.mp hy)
  rw [expectedSends_at]
  by_cases hdv : y ∣ hist.length + 1
  · -- the current datagram is deferred
    have hk : Int.tmod (s.msgCount + 1) (⟨d, y⟩ : Config).delayPacket = 0 := by
      rw [hcnt]; exact (tmod_succ_eq_zero_iff hist.length y).mpr hdv
    have hsum := mul_div_add_of_dvd_succ hdv
    have hfree : s.currDelay = false ∨ s.tmpDelay.sendCount = s.msgCount + 1 := by
      by_cases hle : y ≤ hist.length
      · right
        rw [(hslot hle).1, hcnt, hsum]
        push_cast
        rfl
      · left
        rw [hcur]
        simp [hle]
    obtain ⟨h1, h2, h3⟩ := Msg_defer ⟨d, y⟩ s c.fd c.ctx c.r hr hyne hk hfree
    refine ⟨h1, ?_, ?_⟩
    · rw [h2]
      have hle' : y ≤ hist.length + 1 := Nat.le_of_dvd (Nat.succ_pos _) hdv
      have hq : y * ((hist.length + 1) / y) = hist.length + 1 := Nat.mul_div_cancel' hdv
      refine ⟨?_, ?_, ?_⟩
      · simp [hcnt]
      · simp [hle']
      · intro _
        constructor
        · simp only [List.length_append, List.length_singleton, hq]
          rw [hcnt]
          push_cast
          rfl
        · simp only [List.length_append, List.length_singleton, hq]
          have hcopy := c.r.send_after_memcpy s.tmpDelay.msg
          unfold sendBytes at hcopy
          simp [State.pending, MsgCall.datagram, sendBytes, hcopy]
    · rw [h3]
      by_cases hle : y ≤ hist.length
      · have hge : y ≤ y * (hist.length / y) :=
          Nat.le_mul_of_pos_right y (Nat.div_pos hle hy)
        have h2y : 2 * y ≤ hist.length + 1 := by omega
        have hidx : y * (hist.length / y) - 1 = hist.length - y := by omega
        rw [if_pos ⟨hdv, h2y⟩, if_pos hdv, (hslot hle).2, hidx]
        cases hist[hist.length - y]? <;> simp
      · have h2y : ¬ 2 * y ≤ hist.length + 1 := by
          intro h
          obtain ⟨q, hq⟩ := hdv
          have : q = 1 := by
            rcases q with _ | _ | q
            · omega
            · rfl
            · exfalso
              have : y * (q + 1 + 1) = y * q + y + y := by ring
              omega
          subst this
          omega
        have hnone : s.pending = none := by
          unfold State.pending
          rw [hcur]
          simp [hle]
        rw [if_neg (fun h => h2y h.2), if_pos hdv, hnone]
        rfl
  · -- the current datagram is dropped or forwarded, nothing is released
    have hk : ¬ ((⟨d, y⟩ : Config).delayPacket ≠ 0 ∧
        Int.tmod (s.msgCount + 1) (⟨d, y⟩ : Config).delayPacket = 0) := by
      rw [hcnt]
      intro h
      exact hdv ((tmod_succ_eq_zero_iff hist.length y).mp h.2)
    have hnorel : ¬ ((⟨d, y⟩ : Config).delayPacket ≠ 0 ∧ s.currDelay = true ∧
        s.tmpDelay.sendCount = s.msgCount + 1) := by
      rintro ⟨_, hc, hs⟩
      have hle : y ≤ hist.length := by
        rw [hcur] at hc
        simpa using hc
      rw [(hslot hle).1, hcnt] at hs
      have : y * (hist.length / y) + y = hist.length + 1 := by exact_mod_cast hs
      exact mul_div_add_ne_succ hdv this
    obtain ⟨h1, h2, h3⟩ := Msg_pass ⟨d, y⟩ s c.fd c.ctx c.r hr hk
    rw [if_neg hnorel] at h2 h3
    have hne : y ≠ hist.length + 1 := fun e => hdv (e ▸ Nat.dvd_refl y)
    refine ⟨h1, ?_, ?_⟩
    · rw [h2]
      refine ⟨?_, ?_, ?_⟩
      · simp [hcnt]
      · simp only [List.length_append, List.length_singleton, hcur]
        by_cases hle : y ≤ hist.length
        · have : y ≤ hist.length + 1 := by omega
          simp [hle, this]
        · have : ¬ y ≤ hist.length + 1 := by omega
          simp [hle, this]
      · intro hle'
        simp only [List.length_append, List.length_singleton] at hle' ⊢
        have hle : y ≤ hist.length := by omega
        rw [succ_div_of_not_dvd hdv]
        have hpos : 0 < hist.length / y := Nat.div_pos hle hy
        have hlt : y * (hist.length / y) - 1 < hist.length := by
          have := Nat.mul_div_le hist.length y
          have : 0 < y * (hist.length / y) := Nat.mul_pos hy hpos
          omega
        rw [List.getElem?_append_left hlt]
        refine ⟨(hslot hle).1, ?_⟩
        rw [← (hslot hle).2]
        rfl
    · rw [h3]
      have hA : ¬ (y ∣ hist.length + 1 ∧ 2 * y ≤ hist.length + 1) := fun h => hdv h.1
      simp only [if_neg hA, if_neg hdv, List.nil_append]
      have hdrop : ((⟨d, y⟩ : Config).dropPacket ≠ 0 ∧
          Int.tmod (s.msgCount + 1) (⟨d, y⟩ : Config).dropPacket = 0) ↔
          (0 < d ∧ d ∣ hist.length + 1) := by
        rw [hcnt]
        show (((d : Nat) : Int) ≠ 0 ∧ _) ↔ _
        rw [tmod_succ_eq_zero_iff]
        constructor
        · rintro ⟨a, b⟩
          exact ⟨Nat.pos_of_ne_zero (by exact_mod_cast a), b⟩
        · rintro ⟨a, b⟩
          exact ⟨by exact_mod_cast (Nat.pos_iff_ne_zero.mp a), b⟩
      by_cases hd : 0 < d ∧ d ∣ hist.length + 1
      · simp only [if_pos (hdrop.mpr hd), if_pos hd]
      · simp only [if_neg (fun h => hd (hdrop.mp h)), if_neg hd]

end UdpProxy

namespace UdpProxy

theorem dispatch_cons (cfg : Config) (s : State) (c : Call) (cs : List Call) :
    dispatch cfg s (c :: cs) =
      c.run cfg s ::
        (if (c.run cfg s).status = .returned then dispatch cfg (c.run cfg s).state cs
         else []) := rfl

theorem dispatch_cons_of_returned (cfg : Config) (s : State) (c : Call) (cs : List Call)
    (h : (c.run cfg s).status = .returned) :
    dispatch cfg s (c :: cs) = c.run cfg s :: dispatch cfg (c.run cfg s).state cs := by
  rw [dispatch_cons, if_pos h]

theorem dispatch_cons_of_not_returned (cfg : Config) (s : State) (c : Call)
    (cs : List Call) (h : (c.run cfg s).status ≠ .returned) :
    dispatch cfg s (c :: cs) = [c.run cfg s] := by
  rw [dispatch_cons, if_neg h]

/-- A run of successful reads from a state that satisfies the invariant: every
call is made and returns, the invariant holds after each, and each sends what
the cadence prescribes for its count. -/
theorem dispatch_Msg_run (y d : Nat) (hy : 0 < y) :
    ∀ (cs hist : List MsgCall) (s : State), Inv y hist s → (∀ c ∈ cs, 0 < c.r.ret) →
      (dispatch ⟨d, y⟩ s (cs.map Call.Msg)).length = cs.length ∧
      ∀ i o, (dispatch ⟨d, y⟩ s (cs.map Call.Msg))[i]? = some o →
        o.status = .returned ∧ Inv y (hist ++ cs.take (i + 1)) o.state ∧
        sends o.out = expectedSends y d (hist ++ cs) (hist.length + i + 1) := by
  intro cs
  induction cs with
  | nil =>
    intro hist s _ _
    refine ⟨rfl, ?_⟩
    intro i o h
    simp [dispatch] at h
  | cons c cs ih =>
    intro hist s hI hr
    have hc : 0 < c.r.ret := hr c (List.mem_cons_self _ _)
    have hcs : ∀ c' ∈ cs, 0 < c'.r.ret := fun c' h => hr c' (List.mem_cons_of_mem _ h)
    obtain ⟨h1, h2, h3⟩ := Msg_step y d hy hist s hI c hc cs
    obtain ⟨ihlen, ihget⟩ := ih (hist ++ [c]) _ h2 hcs
    have hrun : dispatch ⟨d, y⟩ s ((c :: cs).map Call.Msg) =
        Msg ⟨d, y⟩ s c.fd c.ctx c.r ::
          dispatch ⟨d, y⟩ (Msg ⟨d, y⟩ s c.fd c.ctx c.r).state (cs.map Call.Msg) := by
      rw [List.map_cons, dispatch_cons]
      show _ :: (if (Msg ⟨d, y⟩ s c.fd c.ctx c.r).status = .returned then _ else _) = _
      rw [if_pos h1]
      rfl
    rw [hrun]
    refine ⟨by simp [ihlen], ?_⟩
    intro i o h
    cases i with
    | zero =>
      rw [List.getElem?_cons_zero] at h
      cases h
      exact ⟨h1, by simpa using h2, by simpa using h3⟩
    | succ i =>
      rw [List.getElem?_cons_succ] at h
      obtain ⟨a, b, e⟩ := ihget i o h
      refine ⟨a, ?_, ?_⟩
      · simpa [List.append_assoc] using b
      · rw [e]
        simp only [List.append_assoc, List.singleton_append, List.length_append,
          List.length_singleton]
        congr 1
        omega

end UdpProxy

namespace UdpProxy

/-! ## Claims on the delay cadence -/

/-- A run of successful reads from the initial state under a delay interval
`y > 0`: every call is made; the call with count `k` returns with the counter
at `k`, sends what the cadence prescribes, and, when `k` is a multiple of `y`,
leaves its own datagram in the slot with release count `k + y`. -/
theorem dispatch_init_run (y d : Nat) (hy : 0 < y) (calls : List MsgCall)
    (hrecv : ∀ c ∈ calls, 0 < c.r.ret) :
    (dispatch ⟨d, y⟩ initState (calls.map Call.Msg)).length = calls.length ∧
    ∀ k, 1 ≤ k → k ≤ calls.length →
      ∃ o, (dispatch ⟨d, y⟩ initState (calls.map Call.Msg))[k - 1]? = some o ∧
        o.status = .returned ∧ o.state.msgCount = k ∧
        sends o.out = expectedSends y d calls k ∧
        (y ∣ k →
          o.state.pending = (calls[k - 1]?).map MsgCall.datagram ∧
          o.state.tmpDelay.sendCount = k + y) ∧
        (o.state.currDelay = decide (y ≤ k)) ∧
        (y ≤ k →
          o.state.pending = (calls[y * (k / y) - 1]?).map MsgCall.datagram ∧
          o.state.tmpDelay.sendCount = ((y * (k / y) + y : Nat) : Int)) := by
  obtain ⟨hlen, hget⟩ := dispatch_Msg_run y d hy calls [] initState (Inv_init y hy) hrecv
  refine ⟨hlen, ?_⟩
  intro k hk1 hkN
  have hlt : k - 1 < (dispatch ⟨d, y⟩ initState (calls.map Call.Msg)).length := by
    rw [hlen]; omega
  refine ⟨_, List.getElem?_eq_getElem hlt, ?_⟩
  obtain ⟨a, b, e⟩ := hget (k - 1) _ (List.getElem?_eq_getElem hlt)
  have hk : k - 1 + 1 = k := by omega
  rw [hk] at b
  simp only [List.nil_append, List.length_nil, Nat.zero_add, hk] at b e
  obtain ⟨bcnt, bcur, bslot⟩ := b
  have htake : (calls.take k).length = k := by
    rw [List.length_take]; omega
  rw [htake] at bcnt bcur bslot
  refine ⟨a, bcnt, e, ?_, bcur, ?_⟩
  · intro hdv
    have hle : y ≤ k := Nat.le_of_dvd (by omega) hdv
    have hq : y * (k / y) = k := Nat.mul_div_cancel' hdv
    obtain ⟨s1, s2⟩ := bslot hle
    rw [hq] at s1 s2
    constructor
    · rw [s2, List.getElem?_take_of_lt (by omega)]
    · rw [s1]
      push_cast
      rfl
  · intro hle
    obtain ⟨s1, s2⟩ := bslot hle
    have hlt : y * (k / y) - 1 < k := by
      have h1 := Nat.mul_div_le k y
      have h2 : 0 < y * (k / y) := Nat.mul_pos hy (Nat.div_pos hle hy)
      omega
    exact ⟨by rw [s2, List.getElem?_take_of_lt hlt], s1⟩

/-- The call with count `k + y` releases the datagram deferred at a multiple
`k` of `y`, and sends nothing else. -/
theorem dispatch_init_release (y d : Nat) (hy : 0 < y) (calls : List MsgCall)
    (hrecv : ∀ c ∈ calls, 0 < c.r.ret) (k : Nat) (hk1 : 1 ≤ k) (hdv : y ∣ k)
    (hkN : k + y ≤ calls.length) :
    ∃ c o, calls[k - 1]? = some c ∧
      (dispatch ⟨d, y⟩ initState (calls.map Call.Msg))[k + y - 1]? = some o ∧
      sends o.out = [c.datagram] := by
  have hlt : k - 1 < calls.length := by omega
  obtain ⟨o, h1, _, _, h4, _⟩ :=
    (dispatch_init_run y d hy calls hrecv).2 (k + y) (by omega) hkN
  refine ⟨calls[k - 1], o, List.getElem?_eq_getElem hlt, h1, ?_⟩
  rw [h4]
  unfold expectedSends
  have hle : y ≤ k := Nat.le_of_dvd (by omega) hdv
  have hdv' : y ∣ k + y := Dvd.dvd.add hdv (Nat.dvd_refl y)
  have h2y : 2 * y ≤ k + y := by omega
  have hidx : k + y - y - 1 = k - 1 := by omega
  rw [if_pos ⟨hdv', h2y⟩, if_pos hdv', hidx, List.getElem?_eq_getElem hlt]
  rfl

/-- C1 (delay cadence). Under a delay interval `y > 0` and any drop interval
`d ≥ 0`, in a run of `Msg` from the initial state over successful reads
`calls` (any sockets, any sessions), every call is made and returns, and the
call that brings the counter to `k` sends exactly this, in this order: first
the datagram that got count `k - y`, if `k` is a multiple of `y` and
`k ≥ 2 * y`; then its own datagram, unless `k` is a multiple of `y` (or of
`d`).  So the datagram with a count `k` that is a multiple of `y` is not sent
by the call that receives it, which stores it with release count `k + y`; it
stays in the slot, unsent, through every count `j` with `k ≤ j < k + y`; no
call other than the one with count `k + y` sends it; and that call, if the run
gets there, sends it first (and nothing else, its own datagram being deferred
in turn), with the bytes received and to the peer computed at count `k`. -/
theorem delay_cadence (y d : Nat) (hy : 0 < y) (calls : List MsgCall)
    (hrecv : ∀ c ∈ calls, 0 < c.r.ret) :
    (dispatch ⟨d, y⟩ initState (calls.map Call.Msg)).length = calls.length ∧
    (∀ k, 1 ≤ k → k ≤ calls.length →
      ∃ o, (dispatch ⟨d, y⟩ initState (calls.map Call.Msg))[k - 1]? = some o ∧
        o.status = .returned ∧ o.state.msgCount = k ∧
        sends o.out =
          (if y ∣ k ∧ 2 * y ≤ k
            then (calls[k - y - 1]?).toList.map MsgCall.datagram else []) ++
          (if y ∣ k then []
           else if 0 < d ∧ d ∣ k then []
           else (calls[k - 1]?).toList.map MsgCall.datagram) ∧
        (y ∣ k →
          o.state.pending = (calls[k - 1]?).map MsgCall.datagram ∧
          o.state.tmpDelay.sendCount = k + y)) ∧
    (∀ k, 1 ≤ k → y ∣ k → k + y ≤ calls.length →
      ∃ c o, calls[k - 1]? = some c ∧
        (dispatch ⟨d, y⟩ initState (calls.map Call.Msg))[k + y - 1]? = some o ∧
        sends o.out = [c.datagram]) ∧
    (∀ k j, 1 ≤ k → y ∣ k → k ≤ j → j < k + y → j ≤ calls.length →
      ∃ o, (dispatch ⟨d, y⟩ initState (calls.map Call.Msg))[j - 1]? = some o ∧
        o.state.pending = (calls[k - 1]?).map MsgCall.datagram ∧
        o.state.tmpDelay.sendCount = k + y) := by
  obtain ⟨hlen, key⟩ := dispatch_init_run y d hy calls hrecv
  refine ⟨hlen, ?_, ?_, ?_⟩
  · intro k hk1 hkN
    obtain ⟨o, h1, h2, h3, h4, h5, _⟩ := key k hk1 hkN
    exact ⟨o, h1, h2, h3, h4, h5⟩
  · intro k hk1 hdv hkN
    exact dispatch_init_release y d hy calls hrecv k hk1 hdv hkN
  · intro k j hk1 hdv hkj hjk hjN
    obtain ⟨o, h1, _, _, _, _, _, h7⟩ := key j (by omega) hjN
    have hle : y ≤ k := Nat.le_of_dvd (by omega) hdv
    obtain ⟨q, hq⟩ := hdv
    have hdiv : j / y = q := by
      apply Nat.div_eq_of_lt_le
      · rw [Nat.mul_comm]; omega
      · rw [Nat.succ_mul, Nat.mul_comm]; omega
    obtain ⟨p1, p2⟩ := h7 (by omega)
    rw [hdiv, ← hq] at p1 p2
    refine ⟨o, h1, p1, ?_⟩
    rw [p2]
    push_cast
    rfl

end UdpProxy

namespace UdpProxy

/-! ## Runs with the delay rule disabled -/

/-- With `delayPacket = 0` a successful read only advances the counter, and
its datagram is dropped when the new count is a multiple of `d > 0` and
forwarded otherwise. -/
theorem Msg_nodelay (d : Nat) (s : State) (n : Nat) (hn : s.msgCount = n)
    (c : MsgCall) (hr : 0 < c.r.ret) :
    (Msg ⟨d, 0⟩ s c.fd c.ctx c.r).status = .returned ∧
    (Msg ⟨d, 0⟩ s c.fd c.ctx c.r).state = { s with msgCount := ((n + 1 : Nat) : Int) } ∧
    sends (Msg ⟨d, 0⟩ s c.fd c.ctx c.r).out =
      if 0 < d ∧ d ∣ n + 1 then [] else [c.datagram] := by
  have hk : ¬ ((⟨d, 0⟩ : Config).delayPacket ≠ 0 ∧
      Int.tmod (s.msgCount + 1) (⟨d, 0⟩ : Config).delayPacket = 0) := fun h => h.1 rfl
  have hnorel : ¬ ((⟨d, 0⟩ : Config).delayPacket ≠ 0 ∧ s.currDelay = true ∧
      s.tmpDelay.sendCount = s.msgCount + 1) := fun h => h.1 rfl
  obtain ⟨h1, h2, h3⟩ := Msg_pass ⟨d, 0⟩ s c.fd c.ctx c.r hr hk
  rw [if_neg hnorel] at h2 h3
  refine ⟨h1, ?_, ?_⟩
  · rw [h2, hn]
    push_cast
    rfl
  · rw [h3, List.nil_append]
    have hdrop : ((⟨d, 0⟩ : Config).dropPacket ≠ 0 ∧
        Int.tmod (s.msgCount + 1) (⟨d, 0⟩ : Config).dropPacket = 0) ↔
        (0 < d ∧ d ∣ n + 1) := by
      rw [hn]
      show (((d : Nat) : Int) ≠ 0 ∧ _) ↔ _
      rw [tmod_succ_eq_zero_iff]
      constructor
      · rintro ⟨a, b⟩
        exact ⟨Nat.pos_of_ne_zero (by exact_mod_cast a), b⟩
      · rintro ⟨a, b⟩
        exact ⟨by exact_mod_cast (Nat.pos_iff_ne_zero.mp a), b⟩
    by_cases hd : 0 < d ∧ d ∣ n + 1
    · simp only [if_pos (hdrop.mpr hd), if_pos hd]
    · simp only [if_neg (fun h => hd (hdrop.mp h)), if_neg hd]

theorem dispatch_Msg_cons_returned (cfg : Config) (s : State) (c : MsgCall)
    (cs : List MsgCall) (h : (Msg cfg s c.fd c.ctx c.r).status = .returned) :
    dispatch cfg s ((c :: cs).map Call.Msg) =
      Msg cfg s c.fd c.ctx c.r ::
        dispatch cfg (Msg cfg s c.fd c.ctx c.r).state (cs.map Call.Msg) := by
  rw [List.map_cons, dispatch_cons]
  show _ :: (if (Msg cfg s c.fd c.ctx c.r).status = .returned then _ else _) = _
  rw [if_pos h]
  rfl

/-- A run of successful reads with the delay rule disabled, from any state
whose counter is `n`: call `i` (from 0) returns with the counter at
`n + i + 1` and the slot untouched, and sends its own datagram unless that
count is a multiple of `d > 0`. -/
theorem dispatch_nodelay (d : Nat) :
    ∀ (cs : List MsgCall) (s : State) (n : Nat), s.msgCount = n →
      (∀ c ∈ cs, 0 < c.r.ret) →
      (dispatch ⟨d, 0⟩ s (cs.map Call.Msg)).length = cs.length ∧
      ∀ i o, (dispatch ⟨d, 0⟩ s (cs.map Call.Msg))[i]? = some o →
        o.status = .returned ∧
        o.state = { s with msgCount := ((n + i + 1 : Nat) : Int) } ∧
        ∃ c, cs[i]? = some c ∧
          sends o.out = if 0 < d ∧ d ∣ n + i + 1 then [] else [c.datagram] := by
  intro cs
  induction cs with
  | nil =>
    intro s n _ _
    refine ⟨rfl, ?_⟩
    intro i o h
    simp [dispatch] at h
  | cons c cs ih =>
    intro s n hn hr
    have hc : 0 < c.r.ret := hr c (List.mem_cons_self _ _)
    have hcs : ∀ c' ∈ cs, 0 < c'.r.ret := fun c' h => hr c' (List.mem_cons_of_mem _ h)
    obtain ⟨h1, h2, h3⟩ := Msg_nodelay d s n hn c hc
    have hn' : (Msg ⟨d, 0⟩ s c.fd c.ctx c.r).state.msgCount = ((n + 1 : Nat) : Int) := by
      rw [h2]
    obtain ⟨ihlen, ihget⟩ := ih _ (n + 1) hn' hcs
    rw [dispatch_Msg_cons_returned _ _ _ _ h1]
    refine ⟨by simp [ihlen], ?_⟩
    intro i o h
    cases i with
    | zero =>
      rw [List.getElem?_cons_zero] at h
      cases h
      exact ⟨h1, h2, c, List.getElem?_cons_zero, h3⟩
    | succ i =>
      rw [List.getElem?_cons_succ] at h
      obtain ⟨a, b, c', hc', e⟩ := ihget i o h
      have harith : n + 1 + i + 1 = n + (i + 1) + 1 := by omega
      refine ⟨a, ?_, c', ?_, ?_⟩
      · rw [b, h2, harith]
      · rw [List.getElem?_cons_succ]; exact hc'
      · rw [e, harith]

/-- The number of calls that send nothing in such a run: the multiples of `d`
among the counts `n + 1, ..., n + cs.length`. -/
theorem dispatch_nodelay_count (d : Nat) :
    ∀ (cs : List MsgCall) (s : State) (n : Nat), s.msgCount = n →
      (∀ c ∈ cs, 0 < c.r.ret) →
      (dispatch ⟨d, 0⟩ s (cs.map Call.Msg)).countP (fun o => decide (sends o.out = []))
        + n / d = (n + cs.length) / d := by
  intro cs
  induction cs with
  | nil =>
    intro s n _ _
    simp [dispatch]
  | cons c cs ih =>
    intro s n hn hr
    have hc : 0 < c.r.ret := hr c (List.mem_cons_self _ _)
    have hcs : ∀ c' ∈ cs, 0 < c'.r.ret := fun c' h => hr c' (List.mem_cons_of_mem _ h)
    obtain ⟨h1, h2, h3⟩ := Msg_nodelay d s n hn c hc
    have hn' : (Msg ⟨d, 0⟩ s c.fd c.ctx c.r).state.msgCount = ((n + 1 : Nat) : Int) := by
      rw [h2]
    have ih' := ih _ (n + 1) hn' hcs
    rw [dispatch_Msg_cons_returned _ _ _ _ h1, List.countP_cons, h3]
    have hlen : n + (c :: cs).length = n + 1 + cs.length := by
      simp only [List.length_cons]; omega
    rw [hlen, ← ih']
    by_cases hd : 0 < d ∧ d ∣ n + 1
    · have : (n + 1) / d = n / d + 1 := by rw [Nat.succ_div, if_pos hd.2]
      simp only [if_pos hd, decide_True, if_true]
      omega
    · have : (n + 1) / d = n / d := by
        rcases Nat.eq_zero_or_pos d with h0 | hpos
        · subst h0; simp
        · exact succ_div_of_not_dvd (fun h => hd ⟨hpos, h⟩)
      simp only [if_neg hd]
      simp
      omega

end UdpProxy

namespace UdpProxy

/-- C2 (drop cadence). Under a drop interval `d > 0` with the delay rule
disabled, in a run of `Msg` from the initial state over `N` successful reads
(any sockets, any sessions), every call is made and returns; the call that
brings the counter to `k` leaves the delay slot untouched and sends nothing
when `k` is a multiple of `d`, and otherwise sends exactly its own datagram to
its peer socket; and exactly `N / d` calls send nothing. -/
theorem drop_cadence (d : Nat) (hd : 0 < d) (calls : List MsgCall)
    (hrecv : ∀ c ∈ calls, 0 < c.r.ret) :
    (dispatch ⟨d, 0⟩ initState (calls.map Call.Msg)).length = calls.length ∧
    (∀ k, 1 ≤ k → k ≤ calls.length →
      ∃ c o, calls[k - 1]? = some c ∧
        (dispatch ⟨d, 0⟩ initState (calls.map Call.Msg))[k - 1]? = some o ∧
        o.status = .returned ∧
        o.state = { initState with msgCount := (k : Int) } ∧
        sends o.out = if d ∣ k then [] else [c.datagram]) ∧
    (dispatch ⟨d, 0⟩ initState (calls.map Call.Msg)).countP
        (fun o => decide (sends o.out = [])) = calls.length / d := by
  obtain ⟨hlen, hget⟩ := dispatch_nodelay d calls initState 0 rfl hrecv
  refine ⟨hlen, ?_, ?_⟩
  · intro k hk1 hkN
    have hlt : k - 1 < (dispatch ⟨d, 0⟩ initState (calls.map Call.Msg)).length := by
      rw [hlen]; omega
    obtain ⟨a, b, c, hc, e⟩ := hget (k - 1) _ (List.getElem?_eq_getElem hlt)
    have hk : 0 + (k - 1) + 1 = k := by omega
    rw [hk] at b e
    refine ⟨c, _, hc, List.getElem?_eq_getElem hlt, a, b, ?_⟩
    rw [e]
    by_cases hdv : d ∣ k
    · rw [if_pos ⟨hd, hdv⟩, if_pos hdv]
    · rw [if_neg (fun h => hdv h.2), if_neg hdv]
  · have h := dispatch_nodelay_count d calls initState 0 rfl hrecv
    simpa using h

/-- C5 (pass-through). With `dropPacket = 0` and `delayPacket = 0`, in a run of
`Msg` from the initial state over successful reads, every call is made and
returns with the delay slot empty, and the sends of the run are, call by call
and in arrival order, exactly one send per datagram: the `ret` received bytes,
to `ctx.clientFd` when `fd` is `ctx.serverFd` and to `ctx.serverFd` otherwise. -/
theorem passthrough (calls : List MsgCall) (hrecv : ∀ c ∈ calls, 0 < c.r.ret) :
    (dispatch ⟨0, 0⟩ initState (calls.map Call.Msg)).length = calls.length ∧
    (∀ o ∈ dispatch ⟨0, 0⟩ initState (calls.map Call.Msg),
      o.status = .returned ∧ o.state.currDelay = false) ∧
    (dispatch ⟨0, 0⟩ initState (calls.map Call.Msg)).map (fun o => sends o.out) =
      calls.map (fun c =>
        [(if c.fd = c.ctx.serverFd then c.ctx.clientFd else c.ctx.serverFd,
          c.r.msg.take c.r.ret.toNat)]) ∧
    (∀ c ∈ calls, ((c.r.msg.take c.r.ret.toNat).length : Int) = c.r.ret) := by
  have hlen : (dispatch ⟨0, 0⟩ initState (calls.map Call.Msg)).length = calls.length :=
    (dispatch_nodelay 0 calls initState 0 rfl hrecv).1
  have hget : ∀ i o, (dispatch ⟨0, 0⟩ initState (calls.map Call.Msg))[i]? = some o →
      o.status = .returned ∧
      o.state = { initState with msgCount := ((0 + i + 1 : Nat) : Int) } ∧
      ∃ c, calls[i]? = some c ∧
        sends o.out = if 0 < 0 ∧ 0 ∣ 0 + i + 1 then [] else [c.datagram] :=
    (dispatch_nodelay 0 calls initState 0 rfl hrecv).2
  refine ⟨hlen, ?_, ?_, ?_⟩
  · intro o ho
    obtain ⟨i, hi⟩ := List.getElem?_of_mem ho
    obtain ⟨a, b, _⟩ := hget i o hi
    exact ⟨a, by rw [b]; rfl⟩
  · apply List.ext_getElem?
    intro i
    rw [List.getElem?_map, List.getElem?_map]
    by_cases hi : i < calls.length
    · have hlt : i < (dispatch ⟨0, 0⟩ initState (calls.map Call.Msg)).length := by
        rw [hlen]; exact hi
      obtain ⟨_, _, c, hc, e⟩ := hget i _ (List.getElem?_eq_getElem hlt)
      rw [List.getElem?_eq_getElem hlt, hc]
      simp only [Option.map_some', Option.some.injEq]
      rw [e, if_neg (fun h => Nat.lt_irrefl 0 h.1)]
      unfold MsgCall.datagram
      by_cases hfd : c.ctx.serverFd = c.fd
      · rw [if_pos hfd, if_pos hfd.symm]
      · rw [if_neg hfd, if_neg (fun h => hfd h.symm)]
    · have h1 : (dispatch ⟨0, 0⟩ initState (calls.map Call.Msg))[i]? = none := by
        apply List.getElem?_eq_none
        rw [hlen]; omega
      have h2 : calls[i]? = none := List.getElem?_eq_none (by omega)
      rw [h1, h2]
      rfl
  · intro c hc
    have h1 := c.r.hsize
    have h2 := c.r.hret
    have h3 := hrecv c hc
    rw [List.length_take, h1]
    omega

end UdpProxy

namespace UdpProxy

/-! ## Claims on a single call -/

/-- The log lines of a deferral: the delay line is the last effect of the
call, and the drop line is not printed. -/
theorem Msg_defer_out (cfg : Config) (s : State) (fd : Int) (ctx : proxy_ctx) (r : Recv)
    (hr : 0 < r.ret) (hy : cfg.delayPacket ≠ 0)
    (hk : Int.tmod (s.msgCount + 1) cfg.delayPacket = 0)
    (hfree : s.currDelay = false ∨ s.tmpDelay.sendCount = s.msgCount + 1) :
    (Msg cfg s fd ctx r).out.getLast? = some (.printf "*** but delaying this packet\n") ∧
    Effect.printf "*** but dropping this packet\n" ∉ (Msg cfg s fd ctx r).out := by
  have h0 : r.ret ≠ 0 := by omega
  have h1 : ¬ r.ret < 0 := by omega
  have hne : ∀ t : String, ("got " ++ t) ≠ "*** but dropping this packet\n" := by
    intro t h
    have hdata := congrArg String.data h
    rw [String.data_append] at hdata
    have hhead := congrArg List.head? hdata
    simp at hhead
  have hne' : ∀ a b : String,
      ¬ "*** but dropping this packet\n" = ("got " ++ a ++ " from " ++ b) ++ "\n" := by
    intro a b h
    have e : ("got " ++ a ++ " from " ++ b) ++ "\n" = "got " ++ (a ++ " from " ++ b ++ "\n") := by
      simp [String.append_assoc]
    rw [e] at h
    exact hne _ h.symm
  unfold Msg
  rcases hfree with hf | hf
  · simp [h0, h1, hy, hk, hf, hne']
  · cases hc : s.currDelay <;> simp [h0, h1, hy, hk, hf, hc, hne']

end UdpProxy

namespace UdpProxy

/-- C3 (delay before drop). Under `d > 0` and `y > 0`, a call of `Msg` with a
successful read whose new count `k = msgCount + 1` is a multiple of both, made
when nothing stays pending after the release step (the slot is empty, or its
datagram is due at `k`), returns with the current datagram in the slot, release
count `k + y`; it sends only the datagram that was due, if any; its last effect
is the delay line and the drop line is not printed (with the delay rule
switched off the same call would drop the datagram).  Whenever a later
successful read brings the counter to `k + y` with the slot as this call left
it, that call sends exactly the stored datagram; and in a run from the initial
state the call with count `k + y` does so. -/
theorem delay_before_drop (d y : Nat) (hd : 0 < d) (hy : 0 < y) (s : State) (fd : Int)
    (ctx : proxy_ctx) (r : Recv) (hr : 0 < r.ret)
    (hky : Int.tmod (s.msgCount + 1) (y : Int) = 0)
    (hkd : Int.tmod (s.msgCount + 1) (d : Int) = 0)
    (hfree : s.currDelay = false ∨ s.tmpDelay.sendCount = s.msgCount + 1) :
    (Msg ⟨d, y⟩ s fd ctx r).status = .returned ∧
    (Msg ⟨d, y⟩ s fd ctx r).state.msgCount = s.msgCount + 1 ∧
    (Msg ⟨d, y⟩ s fd ctx r).state.currDelay = true ∧
    (Msg ⟨d, y⟩ s fd ctx r).state.tmpDelay.sendCount = s.msgCount + 1 + y ∧
    (Msg ⟨d, y⟩ s fd ctx r).state.pending = some (MsgCall.mk fd ctx r).datagram ∧
    sends (Msg ⟨d, y⟩ s fd ctx r).out = s.pending.toList ∧
    (Msg ⟨d, y⟩ s fd ctx r).out.getLast? =
      some (.printf "*** but delaying this packet\n") ∧
    Effect.printf "*** but dropping this packet\n" ∉ (Msg ⟨d, y⟩ s fd ctx r).out ∧
    (sends (Msg ⟨d, 0⟩ s fd ctx r).out = [] ∧
      (Msg ⟨d, 0⟩ s fd ctx r).state.pending = s.pending) ∧
    (∀ (s' : State) (fd' : Int) (ctx' : proxy_ctx) (r' : Recv), 0 < r'.ret →
      s'.msgCount + 1 = s.msgCount + 1 + y → s'.currDelay = true →
      s'.tmpDelay = (Msg ⟨d, y⟩ s fd ctx r).state.tmpDelay →
      sends (Msg ⟨d, y⟩ s' fd' ctx' r').out = [(MsgCall.mk fd ctx r).datagram]) ∧
    (∀ (calls : List MsgCall) (k : Nat), (∀ c ∈ calls, 0 < c.r.ret) → 1 ≤ k →
      y ∣ k → d ∣ k → k + y ≤ calls.length →
      ∃ c o, calls[k - 1]? = some c ∧
        (dispatch ⟨d, y⟩ initState (calls.map Call.Msg))[k + y - 1]? = some o ∧
        sends o.out = [c.datagram]) := by
  have hyne : (⟨d, y⟩ : Config).delayPacket ≠ 0 := by
    show ((y : Nat) : Int) ≠ 0
    exact_mod_cast (Nat.pos_iff_ne_zero.mp hy)
  obtain ⟨h1, h2, h3⟩ := Msg_defer ⟨d, y⟩ s fd ctx r hr hyne hky hfree
  obtain ⟨h4, h5⟩ := Msg_defer_out ⟨d, y⟩ s fd ctx r hr hyne hky hfree
  have hpend : (Msg ⟨d, y⟩ s fd ctx r).state.pending =
      some (MsgCall.mk fd ctx r).datagram := by
    rw [h2]
    have hcopy := r.send_after_memcpy s.tmpDelay.msg
    unfold sendBytes at hcopy
    simp [State.pending, MsgCall.datagram, sendBytes, hcopy]
  refine ⟨h1, by rw [h2], by rw [h2], by rw [h2], hpend, h3, h4, h5, ?_, ?_, ?_⟩
  · have hk0 : ¬ ((⟨d, 0⟩ : Config).delayPacket ≠ 0 ∧
        Int.tmod (s.msgCount + 1) (⟨d, 0⟩ : Config).delayPacket = 0) := fun h => h.1 rfl
    have hnorel : ¬ ((⟨d, 0⟩ : Config).delayPacket ≠ 0 ∧ s.currDelay = true ∧
        s.tmpDelay.sendCount = s.msgCount + 1) := fun h => h.1 rfl
    have hdrop : (⟨d, 0⟩ : Config).dropPacket ≠ 0 ∧
        Int.tmod (s.msgCount + 1) (⟨d, 0⟩ : Config).dropPacket = 0 := by
      refine ⟨?_, hkd⟩
      show ((d : Nat) : Int) ≠ 0
      exact_mod_cast (Nat.pos_iff_ne_zero.mp hd)
    obtain ⟨_, g2, g3⟩ := Msg_pass ⟨d, 0⟩ s fd ctx r hr hk0
    rw [if_neg hnorel] at g2 g3
    rw [if_pos hdrop] at g3
    exact ⟨g3, by rw [g2]; rfl⟩
  · intro s' fd' ctx' r' hr' hcnt hc' hslot
    have hk' : Int.tmod (s'.msgCount + 1) (⟨d, y⟩ : Config).delayPacket = 0 := by
      rw [hcnt]
      have h1 : ((y : Nat) : Int) ∣ s.msgCount + 1 := Int.dvd_of_tmod_eq_zero hky
      exact Int.tmod_eq_zero_of_dvd (Dvd.dvd.add h1 (dvd_refl _))
    have hfree' : s'.currDelay = false ∨ s'.tmpDelay.sendCount = s'.msgCount + 1 := by
      right
      rw [hslot, h2, hcnt]
    obtain ⟨_, _, e⟩ := Msg_defer ⟨d, y⟩ s' fd' ctx' r' hr' hyne hk' hfree'
    rw [e]
    have hp : s'.pending = (Msg ⟨d, y⟩ s fd ctx r).state.pending := by
      unfold State.pending
      rw [hc', hslot, h2]
    rw [hp, hpend]
    rfl
  · intro calls k hrecv hk1 hdvy _ hkN
    exact dispatch_init_release y d hy calls hrecv k hk1 hdvy hkN

/-- C4 (second deferral is fatal). Under `y > 0`, from any injector state, a
call of `Msg` with a successful read whose new count `k = msgCount + 1` is a
multiple of `y`, made while the slot holds a datagram that is not due at `k`,
ends in `assert(0)`: nothing is sent, the slot and its contents are as before,
and the event loop makes no further call. -/
theorem second_deferral_aborts (d : Int) (y : Nat) (hy : 0 < y) (s : State) (fd : Int)
    (ctx : proxy_ctx) (r : Recv) (hr : 0 < r.ret)
    (hky : Int.tmod (s.msgCount + 1) (y : Int) = 0)
    (hc : s.currDelay = true) (hne : s.tmpDelay.sendCount ≠ s.msgCount + 1) :
    (Msg ⟨d, y⟩ s fd ctx r).status = .aborted ∧
    sends (Msg ⟨d, y⟩ s fd ctx r).out = [] ∧
    (Msg ⟨d, y⟩ s fd ctx r).state.currDelay = true ∧
    (Msg ⟨d, y⟩ s fd ctx r).state.tmpDelay = s.tmpDelay ∧
    (Msg ⟨d, y⟩ s fd ctx r).state.pending = s.pending ∧
    (∀ rest : List Call,
      dispatch ⟨d, y⟩ s (Call.Msg ⟨fd, ctx, r⟩ :: rest) = [Msg ⟨d, y⟩ s fd ctx r]) := by
  have hyne : (⟨d, y⟩ : Config).delayPacket ≠ 0 := by
    show ((y : Nat) : Int) ≠ 0
    exact_mod_cast (Nat.pos_iff_ne_zero.mp hy)
  obtain ⟨h1, h2, h3⟩ := Msg_abort ⟨d, y⟩ s fd ctx r hr hyne hky hc hne
  refine ⟨h1, h3, by rw [h2]; exact hc, by rw [h2], by rw [h2]; rfl, ?_⟩
  intro rest
  have hrun : (Call.Msg ⟨fd, ctx, r⟩).run ⟨d, y⟩ s = Msg ⟨d, y⟩ s fd ctx r := rfl
  rw [dispatch_cons_of_not_returned _ _ _ _ (by rw [hrun, h1]; decide), hrun]

/-- C7 (failed reads). For every configuration and injector state, a call of
`Msg` whose `recv` returns 0 or less returns without a send, prints only the
read line, and leaves counter and slot as they were; the calls that follow run
exactly as if it had not happened. -/
theorem failed_read_no_effect (cfg : Config) (s : State) (fd : Int) (ctx : proxy_ctx)
    (r : Recv) (h : r.ret ≤ 0) :
    (Msg cfg s fd ctx r).status = .returned ∧
    (Msg cfg s fd ctx r).state = s ∧
    sends (Msg cfg s fd ctx r).out = [] ∧
    (Msg cfg s fd ctx r).out =
      [.printf (if r.ret = 0 then "read 0\n" else "read < 0\n")] ∧
    (∀ rest : List Call,
      dispatch cfg s (Call.Msg ⟨fd, ctx, r⟩ :: rest) =
        Msg cfg s fd ctx r :: dispatch cfg s rest) := by
  have e := Msg_failed cfg s fd ctx r h
  refine ⟨by rw [e], by rw [e], by rw [e]; rfl, by rw [e], ?_⟩
  intro rest
  have hrun : (Call.Msg ⟨fd, ctx, r⟩).run cfg s = Msg cfg s fd ctx r := rfl
  have hst : (Msg cfg s fd ctx r).state = s := by rw [e]
  rw [dispatch_cons_of_returned _ _ _ _ (by rw [hrun, e]), hrun, hst]

end UdpProxy

namespace UdpProxy

/-! ## The acceptor -/

/-- On every path `newClient` leaves the injector's globals as they were, and
it never reaches an `assert`. -/
theorem newClient_state (s : State) (e : NewClientEnv) :
    (newClient s e).state = s ∧ (newClient s e).status ≠ .aborted := by
  have key : ∃ st out, newClient s e = { status := st, state := s, out := out } ∧
      st ≠ .aborted := by
    unfold newClient
    repeat' split
    all_goals exact ⟨_, _, rfl, by intro h; cases h⟩
  obtain ⟨st, out, h, hne⟩ := key
  rw [h]
  exact ⟨rfl, hne⟩

/-- C6 (first datagram). For every configuration and injector state, a call of
`newClient` that received a datagram and whose session set-up succeeds
(`malloc`, both `socket`s, `bind`, both `connect`s and both `event_new`s) makes
exactly one send: the `msgLen` received bytes, to the server socket it has
just registered for the new session.  It does not abort and leaves counter and
slot as they were, and when its `send` succeeds the calls that follow run from
the unchanged injector state. -/
theorem first_datagram_bypasses (cfg : Config) (s : State) (e : NewClientEnv)
    (hm : e.mallocOk = true) (hrecv : 0 ≤ e.r.ret) (h1 : 0 ≤ e.clientFd)
    (h2 : 0 ≤ e.bindRet) (h3 : 0 ≤ e.connectClientRet) (h4 : 0 ≤ e.serverFd)
    (h5 : 0 ≤ e.connectServerRet) (h6 : e.cliEventOk = true)
    (h7 : e.srvEventOk = true) :
    sends (newClient s e).out = [(e.serverFd, e.r.msg.take e.r.ret.toNat)] ∧
    ((e.r.msg.take e.r.ret.toNat).length : Int) = e.r.ret ∧
    Effect.event_add e.serverFd ⟨e.clientFd, e.serverFd⟩ ∈ (newClient s e).out ∧
    (newClient s e).state = s ∧
    (newClient s e).status ≠ .aborted ∧
    (0 ≤ e.sendRet →
      (newClient s e).status = .returned ∧
      ∀ rest : List Call,
        dispatch cfg s (Call.newClient e :: rest) = newClient s e :: dispatch cfg s rest) := by
  have g1 : ¬ e.clientFd < 0 := by omega
  have g2 : ¬ e.bindRet < 0 := by omega
  have g3 : ¬ e.connectClientRet < 0 := by omega
  have g4 : ¬ e.serverFd < 0 := by omega
  have g5 : ¬ e.connectServerRet < 0 := by omega
  have hst := newClient_state s e
  refine ⟨?_, ?_, ?_, hst.1, hst.2, ?_⟩
  · unfold newClient sendBytes
    by_cases hs : e.sendRet < 0 <;>
      simp [hm, g1, g2, g3, g4, g5, h6, h7, hs, sends_append]
  · have a := e.r.hsize
    have b := e.r.hret
    rw [List.length_take, a]
    omega
  · unfold newClient
    by_cases hs : e.sendRet < 0 <;>
      simp [hm, g1, g2, g3, g4, g5, h6, h7, hs]
  · intro hs
    have hs' : ¬ e.sendRet < 0 := by omega
    have hret : (newClient s e).status = .returned := by
      unfold newClient
      simp [hm, g1, g2, g3, g4, g5, h6, h7, hs']
    refine ⟨hret, ?_⟩
    intro rest
    have hrun : (Call.newClient e).run cfg s = newClient s e := rfl
    rw [dispatch_cons_of_returned _ _ _ _ (by rw [hrun, hret]), hrun, hst.1]

/-! ## The record classifier -/

/-- C8 (classification table). For a buffer of at least 14 bytes with byte 0
equal to `b0` and byte 13 equal to `b13`, `GetRecordType` returns the label of
the table: under `b0 = 0x16` the handshake label selected by `b13`, with
`Encrypted Handshake Message` for every unlisted `b13`; `Change Cipher Spec`,
`Application Data`, `Alert` for `b0 = 0x14, 0x17, 0x15`; `Unknown` for every
other `b0`.  Any other buffer with the same bytes 0 and 13 gets the same
label. -/
theorem GetRecordType_table (msg : List char) (h : 14 ≤ msg.length) (b0 b13 : char)
    (h0 : msg.get ⟨0, by omega⟩ = b0) (h13 : msg.get ⟨13, by omega⟩ = b13) :
    (b0 = 0x16 →
      (b13 = 0x01 → GetRecordType msg h = "Client Hello") ∧
      (b13 = 0x00 → GetRecordType msg h = "Hello Request") ∧
      (b13 = 0x03 → GetRecordType msg h = "Hello Verify Request") ∧
      (b13 = 0x04 → GetRecordType msg h = "Session Ticket") ∧
      (b13 = 0x0b → GetRecordType msg h = "Certificate") ∧
      (b13 = 0x0d → GetRecordType msg h = "Certificate Request") ∧
      (b13 = 0x0f → GetRecordType msg h = "Certificate Verify") ∧
      (b13 = 0x02 → GetRecordType msg h = "Server Hello") ∧
      (b13 = 0x0e → GetRecordType msg h = "Server Hello Done") ∧
      (b13 = 0x10 → GetRecordType msg h = "Client Key Exchange") ∧
      (b13 = 0x0c → GetRecordType msg h = "Server Key Exchange") ∧
      (b13 ∉ [0x01, 0x00, 0x03, 0x04, 0x0b, 0x0d, 0x0f, 0x02, 0x0e, 0x10, 0x0c] →
        GetRecordType msg h = "Encrypted Handshake Message")) ∧
    (b0 = 0x14 → GetRecordType msg h = "Change Cipher Spec") ∧
    (b0 = 0x17 → GetRecordType msg h = "Application Data") ∧
    (b0 = 0x15 → GetRecordType msg h = "Alert") ∧
    (b0 ∉ [0x16, 0x14, 0x17, 0x15] → GetRecordType msg h = "Unknown") ∧
    (∀ (msg' : List char) (h' : 14 ≤ msg'.length),
      msg'.get ⟨0, by omega⟩ = b0 → msg'.get ⟨13, by omega⟩ = b13 →
      GetRecordType msg' h' = GetRecordType msg h) := by
  refine ⟨?_, ?_, ?_, ?_, ?_, ?_⟩
  · intro hb0
    unfold GetRecordType
    rw [h0, h13, if_pos hb0]
    refine ⟨?_, ?_, ?_, ?_, ?_, ?_, ?_, ?_, ?_, ?_, ?_, ?_⟩ <;> intro hb <;> simp_all
  · intro hb0
    unfold GetRecordType
    rw [h0]
    simp [hb0]
  · intro hb0
    unfold GetRecordType
    rw [h0]
    simp [hb0]
  · intro hb0
    unfold GetRecordType
    rw [h0]
    simp [hb0]
  · intro hb0
    unfold GetRecordType
    rw [h0]
    simp_all
  · intro msg' h' h0' h13'
    unfold GetRecordType
    rw [h0, h13, h0', h13']

end UdpProxy

namespace UdpProxy

/-! ## Every run from the initial state -/

theorem Inv.slot {y : Nat} {hist : List MsgCall} {s : State} (h : Inv y hist s) :
    0 ≤ s.msgCount ∧
    (s.currDelay = true ↔ (y : Int) ≤ s.msgCount) ∧
    (s.currDelay = true →
      s.tmpDelay.sendCount = (y : Int) * (s.msgCount / (y : Int)) + (y : Int)) := by
  obtain ⟨a, b, c⟩ := h
  refine ⟨by rw [a]; exact Int.natCast_nonneg _, ?_, ?_⟩
  · rw [a, b]
    simp
  · intro hc
    rw [b] at hc
    have hle : y ≤ hist.length := by simpa using hc
    rw [(c hle).1, a]
    push_cast
    rfl

/-- Any run of the event loop from a state that satisfies the invariant: no
call aborts, and after call `i` the invariant holds for the successful reads
made so far. -/
theorem dispatch_inv (y d : Nat) (hy : 0 < y) :
    ∀ (cs : List Call) (hist : List MsgCall) (s : State), Inv y hist s →
      ∀ i o, (dispatch ⟨d, y⟩ s cs)[i]? = some o →
        o.status ≠ .aborted ∧ Inv y (hist ++ received (cs.take (i + 1))) o.state := by
  intro cs
  induction cs with
  | nil =>
    intro hist s _ i o h
    simp [dispatch] at h
  | cons c cs ih =>
    intro hist s hI i o h
    -- the first call keeps the invariant and does not abort
    have hfirst : (c.run ⟨d, y⟩ s).status ≠ .aborted ∧
        Inv y (hist ++ received [c]) (c.run ⟨d, y⟩ s).state := by
      cases c with
      | Msg m =>
        by_cases hr : 0 < m.r.ret
        · obtain ⟨h1, h2, _⟩ := Msg_step y d hy hist s hI m hr []
          refine ⟨?_, ?_⟩
          · show (Msg ⟨d, y⟩ s m.fd m.ctx m.r).status ≠ .aborted
            rw [h1]
            intro hh
            cases hh
          · show Inv y (hist ++ received [Call.Msg m]) (Msg ⟨d, y⟩ s m.fd m.ctx m.r).state
            simpa [received, hr] using h2
        · have e := Msg_failed ⟨d, y⟩ s m.fd m.ctx m.r (by omega)
          refine ⟨?_, ?_⟩
          · show (Msg ⟨d, y⟩ s m.fd m.ctx m.r).status ≠ .aborted
            rw [e]
            intro hh
            cases hh
          · show Inv y (hist ++ received [Call.Msg m]) (Msg ⟨d, y⟩ s m.fd m.ctx m.r).state
            rw [e]
            simpa [received, hr] using hI
      | newClient e =>
        obtain ⟨h1, h2⟩ := newClient_state s e
        refine ⟨h2, ?_⟩
        show Inv y (hist ++ received [Call.newClient e]) (newClient s e).state
        rw [h1]
        simpa [received] using hI
    have hrec : ∀ l : List Call, received (c :: l) = received [c] ++ received l := by
      intro l
      cases c with
      | Msg m =>
        by_cases hr : 0 < m.r.ret <;> simp [received, hr]
      | newClient e => simp [received]
    cases i with
    | zero =>
      rw [dispatch_cons, List.getElem?_cons_zero] at h
      cases h
      simpa using hfirst
    | succ i =>
      rw [dispatch_cons, List.getElem?_cons_succ] at h
      by_cases hret : (c.run ⟨d, y⟩ s).status = .returned
      · rw [if_pos hret] at h
        obtain ⟨a, b⟩ := ih _ _ hfirst.2 i o h
        refine ⟨a, ?_⟩
        rw [List.take_succ_cons, hrec, ← List.append_assoc]
        exact b
      · rw [if_neg hret] at h
        simp at h

/-- C10 (the abort is unreachable). Under a delay interval `y > 0` and any
drop interval `d ≥ 0`, with an unbounded counter, in every run of `Msg` and
`newClient` calls from the initial state (any reads, failed or not, any
sessions, any set-up results): no call ends in `assert(0)`; and after every
call the counter is the number of successful reads made so far, a datagram is
pending iff `msgCount ≥ y`, and then its `sendCount` is
`y * (msgCount / y) + y`. -/
theorem abort_unreachable (y d : Nat) (hy : 0 < y) (calls : List Call) :
    ∀ i o, (dispatch ⟨d, y⟩ initState calls)[i]? = some o →
      o.status ≠ .aborted ∧
      o.state.msgCount = ((received (calls.take (i + 1))).length : Int) ∧
      (o.state.currDelay = true ↔ (y : Int) ≤ o.state.msgCount) ∧
      (o.state.currDelay = true →
        o.state.tmpDelay.sendCount =
          (y : Int) * (o.state.msgCount / (y : Int)) + (y : Int)) := by
  intro i o h
  obtain ⟨a, b⟩ := dispatch_inv y d hy calls [] initState (Inv_init y hy) i o h
  rw [List.nil_append] at b
  exact ⟨a, b.1, b.slot.2.1, b.slot.2.2⟩

end UdpProxy

namespace UdpProxy

/-! ## The claims on sample inputs -/

/-- C1 on a sample run: with `y = 3` and no drop rule, the third of seven
datagrams is what the sixth call sends, and the sends of the run, call by
call, are those of the cadence. -/
theorem delay_cadence_witness :
    (0 < 3 ∧ ∀ c ∈ sampleCalls, 0 < c.r.ret) ∧
    (∃ c o, sampleCalls[3 - 1]? = some c ∧
      (dispatch ⟨((0 : Nat) : Int), ((3 : Nat) : Int)⟩ initState
        (sampleCalls.map Call.Msg))[3 + 3 - 1]? = some o ∧
      sends o.out = [c.datagram]) ∧
    (dispatch ⟨0, 3⟩ initState (sampleCalls.map Call.Msg)).map (fun o => sends o.out) =
      [[(4, [1])], [(4, [2])], [], [(4, [4])], [(4, [5])], [(3, [3])], [(4, [7])]] :=
  ⟨⟨by decide, by decide⟩,
   (delay_cadence 3 0 (by decide) sampleCalls (by decide)).2.2.1 3 (by decide) (by decide)
     (by decide),
   by decide⟩

/-- C2 on a sample run: with `d = 5`, of seven datagrams the first four are
forwarded, the fifth is dropped, the sixth and seventh are forwarded. -/
theorem drop_cadence_witness :
    (0 < 5 ∧ ∀ c ∈ sampleCalls, 0 < c.r.ret) ∧
    (dispatch ⟨((5 : Nat) : Int), 0⟩ initState (sampleCalls.map Call.Msg)).countP
      (fun o => decide (sends o.out = [])) = sampleCalls.length / 5 ∧
    (dispatch ⟨5, 0⟩ initState (sampleCalls.map Call.Msg)).map (fun o => sends o.out) =
      [[(4, [1])], [(4, [2])], [(3, [3])], [(4, [4])], [], [(3, [6])], [(4, [7])]] :=
  ⟨⟨by decide, by decide⟩,
   (drop_cadence 5 (by decide) sampleCalls (by decide)).2.2,
   by decide⟩

/-- C3 on a sample call: with `d = 2`, `y = 3`, the counter at 5 and the slot
due at 6, the sixth datagram is stored with release count 9. -/
theorem delay_before_drop_witness :
    (0 < 2 ∧ 0 < 3 ∧ 0 < (Recv.ofDatagram [7] (by decide)).ret ∧
      Int.tmod ((sampleState 6).msgCount + 1) ((3 : Nat) : Int) = 0 ∧
      Int.tmod ((sampleState 6).msgCount + 1) ((2 : Nat) : Int) = 0 ∧
      ((sampleState 6).currDelay = false ∨
        (sampleState 6).tmpDelay.sendCount = (sampleState 6).msgCount + 1)) ∧
    (Msg ⟨((2 : Nat) : Int), ((3 : Nat) : Int)⟩ (sampleState 6) 3 sampleCtx
      (Recv.ofDatagram [7] (by decide))).state.tmpDelay.sendCount =
        (sampleState 6).msgCount + 1 + ((3 : Nat) : Int) ∧
    sends (Msg ⟨2, 3⟩ (sampleState 6) 3 sampleCtx (Recv.ofDatagram [7] (by decide))).out =
      [(4, [9])] :=
  ⟨⟨by decide, by decide, by decide, by decide, by decide, Or.inr (by decide)⟩,
   (delay_before_drop 2 3 (by decide) (by decide) (sampleState 6) 3 sampleCtx
     (Recv.ofDatagram [7] (by decide)) (by decide) (by decide) (by decide)
     (Or.inr (by decide))).2.2.2.1,
   by decide⟩

/-- C4 on a sample call: with `y = 3`, the counter at 5 and the slot due at 7,
the sixth datagram ends the program. -/
theorem second_deferral_aborts_witness :
    (0 < 3 ∧ 0 < (Recv.ofDatagram [7] (by decide)).ret ∧
      Int.tmod ((sampleState 7).msgCount + 1) ((3 : Nat) : Int) = 0 ∧
      (sampleState 7).currDelay = true ∧
      (sampleState 7).tmpDelay.sendCount ≠ (sampleState 7).msgCount + 1) ∧
    (Msg ⟨2, ((3 : Nat) : Int)⟩ (sampleState 7) 3 sampleCtx
      (Recv.ofDatagram [7] (by decide))).status = .aborted :=
  ⟨⟨by decide, by decide, by decide, by decide, by decide⟩,
   (second_deferral_aborts 2 3 (by decide) (sampleState 7) 3 sampleCtx
     (Recv.ofDatagram [7] (by decide)) (by decide) (by decide) (by decide)
     (by decide)).1⟩

/-- C5 on a sample run: seven datagrams, seven sends, in order. -/
theorem passthrough_witness :
    (∀ c ∈ sampleCalls, 0 < c.r.ret) ∧
    (dispatch ⟨0, 0⟩ initState (sampleCalls.map Call.Msg)).map (fun o => sends o.out) =
      sampleCalls.map (fun c =>
        [(if c.fd = c.ctx.serverFd then c.ctx.clientFd else c.ctx.serverFd,
          c.r.msg.take c.r.ret.toNat)]) ∧
    (dispatch ⟨0, 0⟩ initState (sampleCalls.map Call.Msg)).map (fun o => sends o.out) =
      [[(4, [1])], [(4, [2])], [(3, [3])], [(4, [4])], [(4, [5])], [(3, [6])], [(4, [7])]] :=
  ⟨by decide, (passthrough sampleCalls (by decide)).2.2.1, by decide⟩

/-- C6 on a sample call: the first datagram goes to the new server socket 6,
whatever the injector holds. -/
theorem first_datagram_bypasses_witness :
    ((sampleEnv (Recv.ofDatagram [1, 2] (by decide))).mallocOk = true ∧
      0 ≤ (sampleEnv (Recv.ofDatagram [1, 2] (by decide))).r.ret ∧
      0 ≤ (sampleEnv (Recv.ofDatagram [1, 2] (by decide))).clientFd ∧
      0 ≤ (sampleEnv (Recv.ofDatagram [1, 2] (by decide))).bindRet ∧
      0 ≤ (sampleEnv (Recv.ofDatagram [1, 2] (by decide))).connectClientRet ∧
      0 ≤ (sampleEnv (Recv.ofDatagram [1, 2] (by decide))).serverFd ∧
      0 ≤ (sampleEnv (Recv.ofDatagram [1, 2] (by decide))).connectServerRet ∧
      (sampleEnv (Recv.ofDatagram [1, 2] (by decide))).cliEventOk = true ∧
      (sampleEnv (Recv.ofDatagram [1, 2] (by decide))).srvEventOk = true) ∧
    (newClient (sampleState 6) (sampleEnv (Recv.ofDatagram [1, 2] (by decide)))).state =
      sampleState 6 ∧
    sends (newClient (sampleState 6) (sampleEnv (Recv.ofDatagram [1, 2] (by decide)))).out =
      [(6, [1, 2])] :=
  ⟨⟨by decide, by decide, by decide, by decide, by decide, by decide, by decide, by decide,
    by decide⟩,
   (first_datagram_bypasses ⟨2, 3⟩ (sampleState 6)
     (sampleEnv (Recv.ofDatagram [1, 2] (by decide))) (by decide) (by decide) (by decide)
     (by decide) (by decide) (by decide) (by decide) (by decide) (by decide)).2.2.2.1,
   by decide⟩

/-- C7 on a sample call: a read that returns -1 with the slot due at the next
count sends nothing and changes nothing. -/
theorem failed_read_no_effect_witness :
    (Recv.failed (-1) (by decide)).ret ≤ 0 ∧
    (Msg ⟨2, 3⟩ (sampleState 6) 3 sampleCtx (Recv.failed (-1) (by decide))).state =
      sampleState 6 ∧
    sends (Msg ⟨2, 3⟩ (sampleState 6) 3 sampleCtx (Recv.failed (-1) (by decide))).out = [] :=
  ⟨by decide,
   (failed_read_no_effect ⟨2, 3⟩ (sampleState 6) 3 sampleCtx (Recv.failed (-1) (by decide))
     (by decide)).2.1,
   (failed_read_no_effect ⟨2, 3⟩ (sampleState 6) 3 sampleCtx (Recv.failed (-1) (by decide))
     (by decide)).2.2.1⟩

/-- C8 on a sample record: a 14-byte handshake record with message type 1 is a
Client Hello. -/
theorem GetRecordType_table_witness :
    (14 ≤ sampleHello.length ∧ sampleHello.get ⟨0, by decide⟩ = 0x16 ∧
      sampleHello.get ⟨13, by decide⟩ = 0x01) ∧
    GetRecordType sampleHello (by decide) = "Client Hello" :=
  ⟨⟨by decide, by decide, by decide⟩,
   ((GetRecordType_table sampleHello (by decide) 0x16 0x01 (by decide) (by decide)).1 rfl).1
     rfl⟩

/-- C9, the code at a failing input: a one-byte datagram `0x16` is labelled by
whatever byte 13 of the receive buffer holds, in `Msg` and in `newClient`; two
buffers that agree on the byte received get different labels, none of them
`Unknown`. -/
theorem short_datagram_label_from_stale_byte :
    (shortRecv 1).ret = 1 ∧ (shortRecv 2).ret = 1 ∧
    (shortRecv 1).msg.take 1 = (shortRecv 2).msg.take 1 ∧
    (Msg ⟨0, 0⟩ initState 3 sampleCtx (shortRecv 1)).out.head? =
      some (.printf "got Client Hello from client\n") ∧
    (Msg ⟨0, 0⟩ initState 3 sampleCtx (shortRecv 2)).out.head? =
      some (.printf "got Server Hello from client\n") ∧
    (newClient initState (sampleEnv (shortRecv 1))).out.head? =
      some (.printf "got Client Hello from client, first msg\n") ∧
    (newClient initState (sampleEnv (shortRecv 2))).out.head? =
      some (.printf "got Server Hello from client, first msg\n") := by
  refine ⟨rfl, rfl, ?_, ?_, ?_, ?_, ?_⟩ <;> decide

/-- C10 on a sample run: with `y = 3` and `d = 2`, ten calls of both handlers,
a failed read among them, none aborts. -/
theorem abort_unreachable_witness :
    0 < 3 ∧
    (∀ i o, (dispatch ⟨((2 : Nat) : Int), ((3 : Nat) : Int)⟩ initState sampleMixed)[i]? =
        some o →
      o.status ≠ .aborted ∧
      o.state.msgCount = ((received (sampleMixed.take (i + 1))).length : Int) ∧
      (o.state.currDelay = true ↔ ((3 : Nat) : Int) ≤ o.state.msgCount) ∧
      (o.state.currDelay = true →
        o.state.tmpDelay.sendCount =
          ((3 : Nat) : Int) * (o.state.msgCount / ((3 : Nat) : Int)) + ((3 : Nat) : Int))) ∧
    (dispatch ⟨2, 3⟩ initState sampleMixed).map
        (fun o => (o.status, o.state.msgCount, o.state.currDelay, sends o.out)) =
      [(.returned, 0, false, [(6, [1])]), (.returned, 1, false, [(4, [2])]),
       (.returned, 2, false, []), (.returned, 2, false, []), (.returned, 3, true, []),
       (.returned, 4, true, []), (.returned, 4, true, [(6, [6])]),
       (.returned, 5, true, [(3, [7])]), (.returned, 6, true, [(4, [4])]),
       (.returned, 7, true, [(4, [9])])] :=
  ⟨by decide, abort_unreachable 3 2 (by decide) sampleMixed, by rfl⟩

end UdpProxy
